import Mathlib

/-!
Shallow embedding of `nmt_worker.py` (`TranslationWorker`): request schema
loading, sentence segmentation with delimiter reconstruction, length guard,
factor resolution, dispatch to the translation engine, reassembly, and
optional quality-estimation scoring.  Texts are modelled as `List Char`;
floats are modelled as exact rationals; the external collaborators
(`sent_tokenize`, the engine's `translate`, the QE model's `predict`) are
parameters of the pipeline.  Uncaught Python exceptions are modelled by the
`Outcome.crash` constructor.
-/

namespace NMT

/-- Texts as character lists (Python `str`). -/
abbrev Str := List Char

/-- Dynamically typed JSON-ish value for the `text` field (`fields.Raw`). -/
inductive JVal where
  | str (s : Str)
  | list (xs : List JVal)
  | int (n : Int)

/-- The validator lambda `type(obj) in [str, list]` on the `text` field. -/
def isStrOrList : JVal → Bool
  | .str _ => true
  | .list _ => true
  | .int _ => false

/-- A raw request body: each schema field either present (with its value) or
absent.  `src`, `tgt`, `domain`, `application` are string fields. -/
structure Body where
  text : Option JVal
  src : Option Str
  tgt : Option Str
  domain : Option Str
  application : Option Str

/-- One factor axis: `{'factors': [...], 'mapping': {...}}`. -/
structure AxisCfg where
  factors : List Str
  mapping : List (Str × Str)

/-- Engine factor configuration: a `lang` axis and an optional `domain` axis. -/
structure Factors where
  lang : AxisCfg
  domain : Option AxisCfg

/-- The body after a successful `NMTSchema().load`: `src`/`tgt`/`domain`
carry their defaults when absent; `text` stays absent when missing (the
field is not marked required). -/
structure LoadedBody where
  text : Option JVal
  src : Str
  tgt : Str
  domain : Str
  application : Option Str

/-- Validation of the `text` field: absent passes (the field is not marked
required), present runs the type-membership lambda. -/
def textValid (b : Body) : Bool :=
  match b.text with
  | none => true
  | some v => isStrOrList v

/-- Validation of `src`/`tgt`: absent uses the default without validation
(marshmallow does not validate `missing` values), present must be a member
of `factors['lang']['mapping'].keys()`. -/
def langValid (factors : Factors) (o : Option Str) : Bool :=
  match o with
  | none => true
  | some s => decide (s ∈ factors.lang.mapping.map Prod.fst)

/-- Model of `NMTSchema().load(body)`: `text` is `Raw` with the type-membership
validator and no `required`/`missing`; `src`/`tgt` default to
`factors['lang']['factors'][0]` and, when provided, must be members of
`factors['lang']['mapping'].keys()`; `domain` defaults to `""`;
`application` defaults to `None`. -/
def schemaLoad (factors : Factors) (b : Body) : Except Unit LoadedBody :=
  if textValid b && langValid factors b.src && langValid factors b.tgt then
    .ok ⟨b.text,
         b.src.getD (factors.lang.factors.headD []),
         b.tgt.getD (factors.lang.factors.headD []),
         b.domain.getD [],
         b.application⟩
  else .error ()

/-- Python `str.strip()`: drop whitespace from both ends. -/
def pyStrip (s : Str) : Str :=
  ((s.dropWhile Char.isWhitespace).reverse.dropWhile Char.isWhitespace).reverse

/-- Whether `pat` is an initial segment of `hay` (Python substring match at the
current position). -/
def isHeadOf : Str → Str → Bool
  | [], _ => true
  | _ :: _, [] => false
  | a :: p, b :: h => a = b && isHeadOf p h

/-- Python `hay.index(pat)`: index of the leftmost occurrence of `pat` in
`hay`, `none` when absent (where `str.index` raises `ValueError`). -/
def strIndex (pat : Str) : Str → Option Nat
  | [] => if pat = [] then some 0 else none
  | c :: t => if isHeadOf pat (c :: t) then some 0 else (strIndex pat t).map (· + 1)

/-- The delimiter-reconstruction loop: for each sentence find it in the
remaining tail, emit the prefix before the match as a delimiter, and carry
the tail past the match forward; the leftover tail is the final delimiter.
`none` models the `ValueError` escape when some sentence is not found. -/
def buildDelims (text : Str) : List Str → Option (List Str)
  | [] => some [text]
  | sent :: rest =>
    match strIndex sent text with
    | none => none
    | some idx =>
      (buildDelims (text.drop (idx + sent.length)) rest).map (text.take idx :: ·)

/-- The `except ValueError` fallback: `['', *[' ' for _ in range(len(sentences)-1)], '']`. -/
def fallbackDelims (n : Nat) : List Str :=
  [] :: (List.replicate (n - 1) [' '] ++ [[]])

/-- Delimiters used for a `Plain` request: reconstruction result, or the
synthetic fallback when any lookup failed. -/
def plainDelims (text : Str) (sentences : List Str) : List Str :=
  match buildDelims text sentences with
  | some ds => ds
  | none => fallbackDelims sentences.length

/-- The `sent_factors` dict passed to the engine. -/
structure SentFactors where
  src_lang : Str
  tgt_lang : Str
  domain : Option Str

/-- Uncaught Python exceptions reachable in `process_request`. -/
inductive PyError where
  | keyError
  | attributeError
  | typeError
  | indexError
deriving DecidableEq

/-- Value of the `translations` variable after the optional reassembly:
a single string (`Plain`, joined with delimiters) or the engine's list. -/
inductive TransVal where
  | s (x : Str)
  | l (xs : List Str)
deriving DecidableEq

/-- A JSON value appearing in a success payload: `result` is a string or a
list of strings, `qeScore` a float or a list of floats. -/
inductive RVal where
  | s (x : Str)
  | l (xs : List Str)
  | q (x : Rat)
  | ql (xs : List Rat)
deriving DecidableEq

/-- Response content: field-error messages (400), the too-large message with
the observed length and the limit (413), or a success payload with `result`
and optionally `qeScore`. -/
inductive Content where
  | validationError
  | tooLarge (length limit : Nat)
  | result (r : RVal)
  | resultQE (r : RVal) (qe : RVal)
deriving DecidableEq

/-- Model of `nauron.Response`: content plus HTTP status code (default 200). -/
structure Response where
  content : Content
  http_status_code : Nat
deriving DecidableEq

/-- Result of one `process_request` call: a response, or an uncaught
exception propagating to the transport layer. -/
inductive Outcome where
  | resp (r : Response)
  | crash (e : PyError)
deriving DecidableEq

/-- Raw return value of `qe_model.predict`: a scalar or a sequence. -/
inductive QERaw where
  | scalar (x : Rat)
  | seq (xs : List Rat)
deriving DecidableEq

/-- The worker's per-process state: the engine's factor configuration and
`translate` entry point, the optional QE model, and the character limit. -/
structure Worker where
  factors : Factors
  translate : List Str → SentFactors → List Str
  qe_model : Option (List (Str × Str) → QERaw)
  char_limit : Nat

/-- Model of `[sent.strip() for sent in body['text']]` on a `Segmented` request:
stripping a non-string element raises `AttributeError` (`none`). -/
def stripAll : List JVal → Option (List Str)
  | [] => some []
  | .str s :: rest => (stripAll rest).map (pyStrip s :: ·)
  | .list _ :: _ => none
  | .int _ :: _ => none

/-- Model of `self.engine.factors['domain']['factors'][0]`: the default domain
factor, an `IndexError` when the configured list is empty. -/
def domainFallback (ax : AxisCfg) : Except PyError (Option Str) :=
  match ax.factors with
  | [] => .error .indexError
  | f :: _ => .ok (some f)

/-- Domain factor resolution (lines 95-99): when a `domain` axis is
configured, a truthy request domain present in the domain mapping resolves
through the mapping, anything else falls back to the first configured
domain factor; without a `domain` axis no domain factor is set. -/
def resolveDomain (factors : Factors) (domain : Str) : Except PyError (Option Str) :=
  match factors.domain with
  | none => .ok none
  | some ax =>
    if domain ≠ [] then
      match ax.mapping.lookup domain with
      | some v => .ok (some v)
      | none => domainFallback ax
    else domainFallback ax

/-- Model of `''.join(itertools.chain.from_iterable(zip(delimiters, translations))) + delimiters[-1]`. -/
def reassemble (delimiters translations : List Str) : Str :=
  ((delimiters.zip translations).map (fun p => p.1 ++ p.2)).flatten ++
    (delimiters.getLast?.getD [])

/-- The pairs handed to `qe_model.predict(zip(sentences, translations))`:
when `translations` is the reassembled string (Plain), `zip` iterates its
characters, pairing each sentence with a one-character string. -/
def qePairs (sentences : List Str) : TransVal → List (Str × Str)
  | .s x => sentences.zip (x.map (fun c => [c]))
  | .l xs => sentences.zip xs

/-- Model of `[float(raw_preds)] if len(sentences) == 1 else list(map(lambda x: float(x), raw_preds))`:
coercing a sequence with `float` or iterating a scalar raises `TypeError`. -/
def coercePreds (nSents : Nat) (raw : QERaw) : Except PyError (List Rat) :=
  if nSents = 1 then
    match raw with
    | .scalar x => .ok [x]
    | .seq _ => .error .typeError
  else
    match raw with
    | .seq xs => .ok xs
    | .scalar _ => .error .typeError

/-- Model of `float(np.mean(predictions))`, with floats modelled as rationals. -/
def ratMean (xs : List Rat) : Rat := xs.sum / (xs.length : Rat)

/-- The success payload `result` value from the `translations` variable. -/
def rvalOf : TransVal → RVal
  | .s x => .s x
  | .l xs => .l xs

/-- Lines 104-110: QE scoring of the (sentence, translation) pairs, scalar
or sequence coercion of the raw model output, and aggregation — mean for a
`Plain` request, the per-pair list for a `Segmented` one. -/
def qePhase (isPlain : Bool) (sentences : List Str) (tv : TransVal)
    (qe : List (Str × Str) → QERaw) : Outcome :=
  match coercePreds sentences.length (qe (qePairs sentences tv)) with
  | .error e => .crash e
  | .ok predictions =>
    .resp ⟨.resultQE (rvalOf tv)
      (if isPlain then .q (ratMean predictions) else .ql predictions), 200⟩

/-- The `translations` variable after line 101-102: joined with the
delimiters into a single string when `delimiters` is truthy (a non-`None`,
non-empty list), untouched otherwise. -/
def transVal (translations : List Str) : Option (List Str) → TransVal
  | some (d :: ds) => .s (reassemble (d :: ds) translations)
  | some [] => .l translations
  | none => .l translations

/-- Lines 81-112: length guard with empty-input shortcut, factor
resolution, engine dispatch, delimiter reassembly, and optional QE
scoring.  `isPlain` records `type(body['text']) == str`; `delimiters` is
`none` for a `Segmented` request. -/
def processTail (w : Worker) (body : LoadedBody) (isPlain : Bool)
    (sentences : List Str) (delimiters : Option (List Str)) : Outcome :=
  if (sentences.map List.length).sum = 0 then
    if isPlain then .resp ⟨.result (.s []), 200⟩
    else .resp ⟨.result (.l []), 200⟩
  else if w.char_limit < (sentences.map List.length).sum then
    .resp ⟨.tooLarge ((sentences.map List.length).sum) w.char_limit, 413⟩
  else
    match w.factors.lang.mapping.lookup body.src, w.factors.lang.mapping.lookup body.tgt with
    | some srcF, some tgtF =>
      match resolveDomain w.factors body.domain with
      | .error e => .crash e
      | .ok domF =>
        match w.qe_model with
        | some qe =>
          qePhase isPlain sentences
            (transVal (w.translate sentences ⟨srcF, tgtF, domF⟩) delimiters) qe
        | none =>
          .resp ⟨.result (rvalOf
            (transVal (w.translate sentences ⟨srcF, tgtF, domF⟩) delimiters)), 200⟩
    | _, _ => .crash .keyError

/-- Model of `TranslationWorker.process_request`: schema load (400 on validation
failure), segmentation with delimiter reconstruction for a string `text`
(with the synthetic fallback), element stripping for a list `text`, then
the guarded translate/reassemble/score tail.  `tok` is the external
`sent_tokenize`. -/
def process_request (tok : Str → List Str) (w : Worker) (b : Body) : Outcome :=
  match schemaLoad w.factors b with
  | .error _ => .resp ⟨.validationError, 400⟩
  | .ok body =>
    match body.text with
    | none => .crash .keyError
    | some (.str text) =>
      let sentences := (tok text).map pyStrip
      processTail w body true sentences (some (plainDelims text sentences))
    | some (.list xs) =>
      match stripAll xs with
      | none => .crash .attributeError
      | some sentences => processTail w body false sentences none
    | some (.int _) => .crash .typeError

/-- The `result` value of a success payload, when present. -/
def resultOf : Content → Option RVal
  | .result r => some r
  | .resultQE r _ => some r
  | .validationError => none
  | .tooLarge _ _ => none

/-! Concrete fixtures used to instantiate the theorems below. -/

/-- String literal helper. -/
def strL (s : String) : Str := s.toList

/-- A two-language factor configuration without a domain axis. -/
def factors0 : Factors :=
  ⟨⟨[strL "en", strL "et"], [(strL "en", strL "EN"), (strL "et", strL "ET")]⟩, none⟩

/-- A factor configuration with a domain axis. -/
def factorsD : Factors :=
  ⟨⟨[strL "en", strL "et"], [(strL "en", strL "EN"), (strL "et", strL "ET")]⟩,
   some ⟨[strL "gen", strL "leg"], [(strL "law", strL "leg")]⟩⟩

/-- Identity translation engine. -/
def idTranslate : List Str → SentFactors → List Str := fun ss _ => ss

/-- Sentence detector returning the two sentences of the running example. -/
def tokHB : Str → List Str := fun _ => [strL "Hello world.", strL "Bye!"]

/-- Sentence detector returning no sentences. -/
def tokNil : Str → List Str := fun _ => []

/-- Sentence detector returning one sentence. -/
def tokOne : Str → List Str := fun _ => [strL "Tere"]

/-- Sentence detector whose output is not a substring of the input. -/
def tokBad : Str → List Str := fun _ => [strL "Hola", strL "Adios"]

/-- Worker with the two-language configuration and no QE model. -/
def w0 : Worker := ⟨factors0, idTranslate, none, 10000⟩

/-- The `Plain` running-example request body. -/
def bHB : Body := ⟨some (.str (strL "Hello world. Bye!")), none, none, none, none⟩

/-- The loaded form of `bHB` under `factors0` (defaults filled in). -/
def lbHB : LoadedBody :=
  ⟨some (.str (strL "Hello world. Bye!")), strL "en", strL "en", [], none⟩

/-- Worker with a 5-character limit. -/
def w5 : Worker := ⟨factors0, idTranslate, none, 5⟩

/-- Worker with a 16-character limit (the example's exact length). -/
def w16 : Worker := ⟨factors0, idTranslate, none, 16⟩

/-- QE model returning the fixed score sequence `[0.2, 0.8]`. -/
def qeSeq : List (Str × Str) → QERaw := fun _ => .seq [1/5, 4/5]

/-- QE model returning the fixed scalar score `0.7`. -/
def qeScalar : List (Str × Str) → QERaw := fun _ => .scalar (7/10)

/-- Worker with the sequence-returning QE model. -/
def wQE : Worker := ⟨factors0, idTranslate, some qeSeq, 10000⟩

/-- Worker with the scalar-returning QE model. -/
def wQE1 : Worker := ⟨factors0, idTranslate, some qeScalar, 10000⟩

/-- The `sentences` list computed from a request's `text` value. -/
def sentencesOf (tok : Str → List Str) : JVal → Option (List Str)
  | .str text => some ((tok text).map pyStrip)
  | .list xs => stripAll xs
  | .int _ => none

/-! Helper lemmas about the segmentation and reconstruction functions. -/

theorem isHeadOf_drop : ∀ p h : Str, isHeadOf p h = true → p ++ h.drop p.length = h
  | [], _, _ => by simp
  | _ :: _, [], hh => by simp [isHeadOf] at hh
  | a :: p, b :: h, hh => by
    simp only [isHeadOf, Bool.and_eq_true, decide_eq_true_eq] at hh
    obtain ⟨rfl, h2⟩ := hh
    simpa using isHeadOf_drop p h h2

theorem strIndex_spec : ∀ (pat hay : Str) (i : Nat), strIndex pat hay = some i →
    hay.take i ++ pat ++ hay.drop (i + pat.length) = hay
  | pat, [], i, h => by
    simp only [strIndex] at h
    split at h
    · next hp =>
      subst hp
      simp at h
      subst h
      simp
    · simp at h
  | pat, c :: t, i, h => by
    by_cases hp : isHeadOf pat (c :: t)
    · simp only [strIndex, hp, if_true] at h
      have h0 : i = 0 := by simpa using h.symm
      subst h0
      simpa using isHeadOf_drop pat (c :: t) hp
    · cases hs : strIndex pat t with
      | none => simp [strIndex, hp, hs] at h
      | some j =>
        simp [strIndex, hp, hs] at h
        obtain rfl : i = j + 1 := by omega
        have ih := strIndex_spec pat t j hs
        have hdrop : j + 1 + pat.length = (j + pat.length) + 1 := by omega
        rw [List.take_succ_cons, hdrop, List.drop_succ_cons]
        simpa using ih

theorem buildDelims_ne_nil (text : Str) (ss ds : List Str)
    (h : buildDelims text ss = some ds) : ds ≠ [] := by
  cases ss with
  | nil => simp [buildDelims] at h; simp [← h]
  | cons s rest =>
    simp only [buildDelims] at h
    split at h
    · simp at h
    · simp only [Option.map_eq_some'] at h
      obtain ⟨ds', _, rfl⟩ := h
      simp

theorem reassemble_cons (d s : Str) (ds ts : List Str) (hne : ds ≠ []) :
    reassemble (d :: ds) (s :: ts) = d ++ s ++ reassemble ds ts := by
  cases ds with
  | nil => exact absurd rfl hne
  | cons e ds' =>
    simp [reassemble, List.getLast?_cons_cons, List.append_assoc]

theorem buildDelims_spec : ∀ (text : Str) (ss ds : List Str),
    buildDelims text ss = some ds → reassemble ds ss = text
  | text, [], ds, h => by
    simp only [buildDelims, Option.some_inj] at h
    subst h
    simp [reassemble]
  | text, sent :: rest, ds, h => by
    simp only [buildDelims] at h
    split at h
    · simp at h
    · next idx hidx =>
      simp only [Option.map_eq_some'] at h
      obtain ⟨ds', hds', rfl⟩ := h
      have hne := buildDelims_ne_nil _ _ _ hds'
      rw [reassemble_cons _ _ _ _ hne, buildDelims_spec _ rest ds' hds']
      simpa [List.append_assoc] using strIndex_spec sent text idx hidx

theorem fallbackDelims_length (n : Nat) (hn : n ≠ 0) :
    (fallbackDelims n).length = n + 1 := by
  simp [fallbackDelims]
  omega

theorem plainDelims_ne_nil (text : Str) (ss : List Str) :
    plainDelims text ss ≠ [] := by
  unfold plainDelims
  split
  · next ds h => exact buildDelims_ne_nil _ _ _ h
  · simp [fallbackDelims]

theorem stripAll_length : ∀ xs : List JVal, ∀ ss : List Str,
    stripAll xs = some ss → ss.length = xs.length
  | [], ss, h => by simp [stripAll] at h; simp [← h]
  | .str s :: rest, ss, h => by
    simp only [stripAll, Option.map_eq_some'] at h
    obtain ⟨ss', hss', rfl⟩ := h
    simp [stripAll_length rest ss' hss']
  | .list _ :: _, ss, h => by simp [stripAll] at h
  | .int _ :: _, ss, h => by simp [stripAll] at h

theorem schemaLoad_ok_eq (f : Factors) (b : Body) (lb : LoadedBody)
    (h : schemaLoad f b = .ok lb) :
    lb = ⟨b.text, b.src.getD (f.lang.factors.headD []),
          b.tgt.getD (f.lang.factors.headD []), b.domain.getD [], b.application⟩ := by
  unfold schemaLoad at h
  split at h
  · injection h with h
    exact h.symm
  · simp at h

theorem textValid_false_iff (b : Body) :
    textValid b = false ↔ ∃ v, b.text = some v ∧ isStrOrList v = false := by
  rcases b with ⟨text, src, tgt, dom, app⟩
  cases text <;> simp [textValid]

theorem langValid_false_iff (f : Factors) (o : Option Str) :
    langValid f o = false ↔ ∃ s, o = some s ∧ s ∉ f.lang.mapping.map Prod.fst := by
  cases o <;> simp [langValid]

theorem schemaLoad_error_iff (f : Factors) (b : Body) :
    schemaLoad f b = .error () ↔
      (textValid b = false ∨ langValid f b.src = false ∨ langValid f b.tgt = false) := by
  unfold schemaLoad
  split
  · next hc =>
    simp only [Bool.and_eq_true] at hc
    simp [hc.1.1, hc.1.2, hc.2]
  · next hc =>
    simp only [Bool.and_eq_true, not_and_or, Bool.not_eq_true] at hc
    simp only [or_assoc] at hc
    simpa using hc

theorem process_request_plain (tok : Str → List Str) (w : Worker) (b : Body)
    (lb : LoadedBody) (text : Str)
    (hload : schemaLoad w.factors b = .ok lb)
    (htext : lb.text = some (.str text)) :
    process_request tok w b =
      processTail w lb true ((tok text).map pyStrip)
        (some (plainDelims text ((tok text).map pyStrip))) := by
  unfold process_request
  rw [hload]
  simp only [htext]

theorem process_request_seg (tok : Str → List Str) (w : Worker) (b : Body)
    (lb : LoadedBody) (xs : List JVal) (ss : List Str)
    (hload : schemaLoad w.factors b = .ok lb)
    (htext : lb.text = some (.list xs))
    (hstrip : stripAll xs = some ss) :
    process_request tok w b = processTail w lb false ss none := by
  unfold process_request
  rw [hload]
  simp only [htext, hstrip]

theorem process_request_noText (tok : Str → List Str) (w : Worker) (b : Body)
    (lb : LoadedBody) (hload : schemaLoad w.factors b = .ok lb)
    (htext : lb.text = none) :
    process_request tok w b = .crash .keyError := by
  unfold process_request
  rw [hload]
  simp only [htext]

theorem process_request_badList (tok : Str → List Str) (w : Worker) (b : Body)
    (lb : LoadedBody) (xs : List JVal) (hload : schemaLoad w.factors b = .ok lb)
    (htext : lb.text = some (.list xs)) (hstrip : stripAll xs = none) :
    process_request tok w b = .crash .attributeError := by
  unfold process_request
  rw [hload]
  simp only [htext, hstrip]

theorem process_request_intText (tok : Str → List Str) (w : Worker) (b : Body)
    (lb : LoadedBody) (n : Int) (hload : schemaLoad w.factors b = .ok lb)
    (htext : lb.text = some (.int n)) :
    process_request tok w b = .crash .typeError := by
  unfold process_request
  rw [hload]
  simp only [htext]

theorem processTail_main (w : Worker) (body : LoadedBody) (isP : Bool)
    (ss : List Str) (ds : Option (List Str)) (sf tf : Str) (df : Option Str)
    (h0 : (ss.map List.length).sum ≠ 0)
    (hlim : (ss.map List.length).sum ≤ w.char_limit)
    (hsrc : w.factors.lang.mapping.lookup body.src = some sf)
    (htgt : w.factors.lang.mapping.lookup body.tgt = some tf)
    (hdom : resolveDomain w.factors body.domain = .ok df) :
    processTail w body isP ss ds =
      (match w.qe_model with
       | some qe =>
         qePhase isP ss (transVal (w.translate ss ⟨sf, tf, df⟩) ds) qe
       | none =>
         .resp ⟨.result (rvalOf (transVal (w.translate ss ⟨sf, tf, df⟩) ds)), 200⟩) := by
  unfold processTail
  rw [if_neg h0, if_neg (by omega), hsrc, htgt, hdom]

theorem processTail_shape (w : Worker) (body : LoadedBody) (isP : Bool)
    (ss : List Str) (ds : Option (List Str)) :
    (∃ e, processTail w body isP ss ds = .crash e) ∨
    (processTail w body isP ss ds =
      .resp ⟨.tooLarge ((ss.map List.length).sum) w.char_limit, 413⟩) ∨
    (∃ rv, processTail w body isP ss ds = .resp ⟨.result rv, 200⟩) ∨
    (∃ rv q, processTail w body isP ss ds = .resp ⟨.resultQE rv q, 200⟩) := by
  unfold processTail qePhase
  split_ifs <;> (repeat' split) <;> simp

theorem processTail_not_400 (w : Worker) (body : LoadedBody) (isP : Bool)
    (ss : List Str) (ds : Option (List Str)) :
    processTail w body isP ss ds ≠ .resp ⟨.validationError, 400⟩ := by
  rcases processTail_shape w body isP ss ds with ⟨e, h⟩ | h | ⟨rv, h⟩ | ⟨rv, q, h⟩ <;>
    simp [h]

theorem ratMean_singleton (x : Rat) : ratMean [x] = x := by
  simp [ratMean]

theorem processTail_200_cases (w : Worker) (body : LoadedBody) (isP : Bool)
    (ss : List Str) (ds : Option (List Str)) (r : Response)
    (hout : processTail w body isP ss ds = .resp r)
    (h200 : r.http_status_code = 200) :
    ((ss.map List.length).sum = 0 ∧
      r.content = .result (if isP then .s [] else .l [])) ∨
    ((ss.map List.length).sum ≠ 0 ∧ ∃ sf tf df,
      resultOf r.content =
        some (rvalOf (transVal (w.translate ss ⟨sf, tf, df⟩) ds))) := by
  unfold processTail at hout
  by_cases hsum : (ss.map List.length).sum = 0
  · rw [if_pos hsum] at hout
    left
    refine ⟨hsum, ?_⟩
    cases isP
    · have hok : Outcome.resp ⟨.result (.l []), 200⟩ = .resp r := hout
      injection hok with h
      rw [← h]
      rfl
    · have hok : Outcome.resp ⟨.result (.s []), 200⟩ = .resp r := hout
      injection hok with h
      rw [← h]
      rfl
  · rw [if_neg hsum] at hout
    by_cases hlim : w.char_limit < (ss.map List.length).sum
    · rw [if_pos hlim] at hout
      injection hout with h
      rw [← h] at h200
      simp at h200
    · rw [if_neg hlim] at hout
      cases hsrc : List.lookup body.src w.factors.lang.mapping with
      | none =>
        rw [hsrc] at hout
        have hcr : Outcome.crash .keyError = .resp r := hout
        exact absurd hcr (by simp)
      | some sf =>
        rw [hsrc] at hout
        cases htgt : List.lookup body.tgt w.factors.lang.mapping with
        | none =>
          rw [htgt] at hout
          have hcr : Outcome.crash .keyError = .resp r := hout
          exact absurd hcr (by simp)
        | some tf =>
          rw [htgt] at hout
          cases hdom : resolveDomain w.factors body.domain with
          | error e =>
            rw [hdom] at hout
            have hcr : Outcome.crash e = .resp r := hout
            exact absurd hcr (by simp)
          | ok df =>
            rw [hdom] at hout
            cases hqe : w.qe_model with
            | none =>
              rw [hqe] at hout
              have hok : Outcome.resp
                  ⟨.result (rvalOf (transVal (w.translate ss ⟨sf, tf, df⟩) ds)),
                   200⟩ = .resp r := hout
              injection hok with h
              exact Or.inr ⟨hsum, sf, tf, df, by rw [← h]; rfl⟩
            | some qe =>
              rw [hqe] at hout
              have hq : qePhase isP ss
                  (transVal (w.translate ss ⟨sf, tf, df⟩) ds) qe = .resp r := hout
              unfold qePhase at hq
              cases hc : coercePreds ss.length
                  (qe (qePairs ss (transVal (w.translate ss ⟨sf, tf, df⟩) ds))) with
              | error e =>
                rw [hc] at hq
                have hcr : Outcome.crash e = .resp r := hq
                exact absurd hcr (by simp)
              | ok ps =>
                rw [hc] at hq
                have hok : Outcome.resp
                    ⟨.resultQE (rvalOf (transVal (w.translate ss ⟨sf, tf, df⟩) ds))
                      (if isP then .q (ratMean ps) else .ql ps), 200⟩ = .resp r := hq
                injection hok with h
                exact Or.inr ⟨hsum, sf, tf, df, by rw [← h]; rfl⟩

/-! Claim theorems. -/

/-- C1: for every `Plain` request on which the sequential left-to-right
substring search on the shrinking tail locates every stripped detected
sentence (so delimiter reconstruction succeeds), concatenating
`delimiters[0], sentences[0], delimiters[1], …, delimiters[-1]` reproduces
the original input text exactly; hence with an identity translation engine
the reassembled `result` of the success response is the original string. -/
theorem C1_round_trip_identity (tok : Str → List Str) (w : Worker) (b : Body)
    (lb : LoadedBody) (text : Str) (ds : List Str) (sf tf : Str) (df : Option Str)
    (hload : schemaLoad w.factors b = .ok lb)
    (htext : lb.text = some (.str text))
    (hds : buildDelims text ((tok text).map pyStrip) = some ds)
    (h0 : ((((tok text).map pyStrip)).map List.length).sum ≠ 0)
    (hlim : ((((tok text).map pyStrip)).map List.length).sum ≤ w.char_limit)
    (hsrc : w.factors.lang.mapping.lookup lb.src = some sf)
    (htgt : w.factors.lang.mapping.lookup lb.tgt = some tf)
    (hdom : resolveDomain w.factors lb.domain = .ok df)
    (hid : w.translate = fun ss _ => ss)
    (hqe : w.qe_model = none) :
    reassemble ds ((tok text).map pyStrip) = text ∧
    process_request tok w b = .resp ⟨.result (.s text), 200⟩ := by
  have hrt := buildDelims_spec _ _ _ hds
  refine ⟨hrt, ?_⟩
  rw [process_request_plain tok w b lb text hload htext,
    processTail_main w lb true _ _ sf tf df h0 hlim hsrc htgt hdom, hqe]
  have hpd : plainDelims text ((tok text).map pyStrip) = ds := by
    unfold plainDelims
    rw [hds]
  obtain ⟨d, ds', rfl⟩ : ∃ d ds', ds = d :: ds' := by
    cases ds with
    | nil => exact absurd rfl (buildDelims_ne_nil _ _ _ hds)
    | cons d ds' => exact ⟨d, ds', rfl⟩
  simp only [hpd, hid]
  simp [transVal, rvalOf, hrt]

/-- Witness for C1 at the running example. -/
theorem C1_round_trip_identity_witness :
    reassemble [[], [' '], []] [strL "Hello world.", strL "Bye!"] =
      strL "Hello world. Bye!" ∧
    process_request tokHB w0 bHB = .resp ⟨.result (.s (strL "Hello world. Bye!")), 200⟩ :=
  C1_round_trip_identity tokHB w0 bHB lbHB
    (strL "Hello world. Bye!") [[], [' '], []] (strL "EN") (strL "EN") none
    rfl rfl rfl (by decide) (by decide) rfl rfl rfl rfl rfl

/-- C5: if the total length of the stripped sentences is 0 (in particular
for `text=""` or `text=[]`), the request short-circuits to a success
response whose `result` is `""` for `Plain` input and `[]` for `Segmented`
input; since this holds for every worker (any engine and any QE model),
neither the engine nor the QE model influences the outcome. -/
theorem C5_empty_shortcut (tok : Str → List Str) (w : Worker) (b : Body)
    (lb : LoadedBody) (hload : schemaLoad w.factors b = .ok lb) :
    (∀ text, lb.text = some (.str text) →
      ((((tok text).map pyStrip)).map List.length).sum = 0 →
      process_request tok w b = .resp ⟨.result (.s []), 200⟩) ∧
    (∀ xs ss, lb.text = some (.list xs) → stripAll xs = some ss →
      (ss.map List.length).sum = 0 →
      process_request tok w b = .resp ⟨.result (.l []), 200⟩) := by
  constructor
  · intro text htext hsum
    rw [process_request_plain tok w b lb text hload htext]
    unfold processTail
    rw [if_pos hsum]
    simp
  · intro xs ss htext hstrip hsum
    rw [process_request_seg tok w b lb xs ss hload htext hstrip]
    unfold processTail
    rw [if_pos hsum]
    simp

/-- Witness for C5 on `text=""` and `text=[]`. -/
theorem C5_empty_shortcut_witness :
    process_request tokNil w0 ⟨some (.str []), none, none, none, none⟩ =
      .resp ⟨.result (.s []), 200⟩ ∧
    process_request tokNil w0 ⟨some (.list []), none, none, none, none⟩ =
      .resp ⟨.result (.l []), 200⟩ :=
  ⟨(C5_empty_shortcut tokNil w0 ⟨some (.str []), none, none, none, none⟩
      ⟨some (.str []), strL "en", strL "en", [], none⟩ rfl).1 [] rfl rfl,
   (C5_empty_shortcut tokNil w0 ⟨some (.list []), none, none, none, none⟩
      ⟨some (.list []), strL "en", strL "en", [], none⟩ rfl).2 [] [] rfl rfl rfl⟩

/-- C7: for a `Plain` request whose delimiter reconstruction fails on any
sentence, the delimiter sequence used for the whole request is exactly
`[''] + [' ']*(n-1) + ['']` of length `n+1`, deterministically, and
processing continues without error to a success response whose `result`
interleaves the synthetic delimiters with the translations. -/
theorem C7_delimiter_fallback (tok : Str → List Str) (w : Worker) (b : Body)
    (lb : LoadedBody) (text : Str) (sents : List Str) (sf tf : Str) (df : Option Str)
    (hload : schemaLoad w.factors b = .ok lb)
    (htext : lb.text = some (.str text))
    (hsent : sents = (tok text).map pyStrip)
    (hfail : buildDelims text sents = none)
    (h0 : (sents.map List.length).sum ≠ 0)
    (hlim : (sents.map List.length).sum ≤ w.char_limit)
    (hsrc : w.factors.lang.mapping.lookup lb.src = some sf)
    (htgt : w.factors.lang.mapping.lookup lb.tgt = some tf)
    (hdom : resolveDomain w.factors lb.domain = .ok df)
    (hqe : w.qe_model = none) :
    plainDelims text sents = [] :: (List.replicate (sents.length - 1) [' '] ++ [[]]) ∧
    (plainDelims text sents).length = sents.length + 1 ∧
    process_request tok w b =
      .resp ⟨.result (.s (reassemble (fallbackDelims sents.length)
        (w.translate sents ⟨sf, tf, df⟩))), 200⟩ := by
  have hpd : plainDelims text sents = fallbackDelims sents.length := by
    unfold plainDelims
    rw [hfail]
  have hn : sents.length ≠ 0 := by
    intro hl
    rw [List.length_eq_zero] at hl
    subst hl
    exact h0 rfl
  refine ⟨by rw [hpd]; rfl, by rw [hpd]; exact fallbackDelims_length _ hn, ?_⟩
  subst hsent
  rw [process_request_plain tok w b lb text hload htext,
    processTail_main w lb true _ _ sf tf df h0 hlim hsrc htgt hdom, hqe, hpd]
  rfl

/-- Witness for C7 with a detector whose sentences do not occur in the text. -/
theorem C7_delimiter_fallback_witness :
    plainDelims (strL "Hello world. Bye!") [strL "Hola", strL "Adios"] =
      [[], [' '], []] ∧
    (plainDelims (strL "Hello world. Bye!") [strL "Hola", strL "Adios"]).length = 3 ∧
    process_request tokBad w0 bHB =
      .resp ⟨.result (.s (strL "Hola Adios")), 200⟩ :=
  C7_delimiter_fallback tokBad w0 bHB lbHB (strL "Hello world. Bye!")
    [strL "Hola", strL "Adios"] (strL "EN") (strL "EN") none
    rfl rfl rfl rfl (by decide) (by decide) rfl rfl rfl rfl

/-- C8: with a configured `domain` axis (whose default factor list is
nonempty, as any deployed configuration has), domain resolution never
fails: a non-empty request domain present in the domain mapping resolves
through the mapping, and any other value (empty or unknown) resolves to
the first entry of the configured default list; with no `domain` axis the
resolved factors carry no domain entry at all. -/
theorem C8_domain_fallback (factors : Factors) (domain : Str) :
    (factors.domain = none → resolveDomain factors domain = .ok none) ∧
    (∀ ax, factors.domain = some ax → ax.factors ≠ [] →
      ((∀ v, domain ≠ [] → ax.mapping.lookup domain = some v →
          resolveDomain factors domain = .ok (some v)) ∧
       ((domain = [] ∨ ax.mapping.lookup domain = none) →
          resolveDomain factors domain = .ok (some (ax.factors.headD []))) ∧
       (∃ df, resolveDomain factors domain = .ok df))) := by
  constructor
  · intro h
    unfold resolveDomain
    rw [h]
  · intro ax hax hne
    obtain ⟨f, fs, hf⟩ : ∃ f fs, ax.factors = f :: fs := by
      cases hfs : ax.factors with
      | nil => exact absurd hfs hne
      | cons f fs => exact ⟨f, fs, rfl⟩
    have hun : resolveDomain factors domain =
        if domain ≠ [] then
          match ax.mapping.lookup domain with
          | some v => .ok (some v)
          | none => domainFallback ax
        else domainFallback ax := by
      unfold resolveDomain
      rw [hax]
    have hfb : domainFallback ax = .ok (some (ax.factors.headD [])) := by
      unfold domainFallback
      rw [hf]
      simp [hf]
    refine ⟨?_, ?_, ?_⟩
    · intro v hdne hv
      rw [hun, if_pos hdne, hv]
    · intro hcase
      rcases hcase with hd | hl
      · rw [hun, if_neg (by simp [hd]), hfb]
      · by_cases hd : domain = []
        · rw [hun, if_neg (by simp [hd]), hfb]
        · rw [hun, if_pos hd, hl, hfb]
    · by_cases hd : domain = []
      · rw [hun, if_neg (by simp [hd]), hfb]
        exact ⟨_, rfl⟩
      · rw [hun, if_pos hd]
        cases hl : ax.mapping.lookup domain with
        | some v => exact ⟨_, rfl⟩
        | none =>
          rw [hfb]
          exact ⟨_, rfl⟩

/-- Witness for C8: mapped, unknown and axis-free domains. -/
theorem C8_domain_fallback_witness :
    resolveDomain factorsD (strL "law") = .ok (some (strL "leg")) ∧
    resolveDomain factorsD (strL "slang") = .ok (some (strL "gen")) ∧
    resolveDomain factors0 (strL "law") = .ok none :=
  ⟨((C8_domain_fallback factorsD (strL "law")).2
      ⟨[strL "gen", strL "leg"], [(strL "law", strL "leg")]⟩ rfl (by decide)).1
      (strL "leg") (by decide) rfl,
   ((C8_domain_fallback factorsD (strL "slang")).2
      ⟨[strL "gen", strL "leg"], [(strL "law", strL "leg")]⟩ rfl (by decide)).2.1
      (Or.inr rfl),
   (C8_domain_fallback factors0 (strL "law")).1 rfl⟩

/-- C6: if the total character count of the stripped sentences exceeds
`char_limit`, the request fails with a 413 response carrying the observed
length and the configured limit, for every worker (so the engine is never
invoked); a count exactly equal to the limit proceeds normally to
translation and yields a success response. -/
theorem C6_size_guard (tok : Str → List Str) (w : Worker) (b : Body)
    (lb : LoadedBody) (tv : JVal) (ss : List Str)
    (hload : schemaLoad w.factors b = .ok lb)
    (htext : lb.text = some tv)
    (hss : sentencesOf tok tv = some ss) :
    (w.char_limit < (ss.map List.length).sum →
      process_request tok w b =
        .resp ⟨.tooLarge ((ss.map List.length).sum) w.char_limit, 413⟩) ∧
    ((ss.map List.length).sum = w.char_limit → (ss.map List.length).sum ≠ 0 →
      ∀ sf tf df, w.factors.lang.mapping.lookup lb.src = some sf →
        w.factors.lang.mapping.lookup lb.tgt = some tf →
        resolveDomain w.factors lb.domain = .ok df → w.qe_model = none →
        ∃ rv, process_request tok w b = .resp ⟨.result rv, 200⟩) := by
  have hpt : ∀ isP ds, processTail w lb isP ss ds = process_request tok w b → True := fun _ _ _ => trivial
  have hmain : ∃ isP ds, process_request tok w b = processTail w lb isP ss ds := by
    cases tv with
    | str text =>
      simp only [sentencesOf, Option.some_inj] at hss
      subst hss
      exact ⟨true, _, process_request_plain tok w b lb text hload htext⟩
    | list xs =>
      simp only [sentencesOf] at hss
      exact ⟨false, none, process_request_seg tok w b lb xs ss hload htext hss⟩
    | int n =>
      simp [sentencesOf] at hss
  obtain ⟨isP, ds, hmain⟩ := hmain
  constructor
  · intro hgt
    rw [hmain]
    unfold processTail
    rw [if_neg (by omega), if_pos hgt]
  · intro heq h0 sf tf df hsrc htgt hdom hqe
    rw [hmain, processTail_main w lb isP ss ds sf tf df h0 (le_of_eq heq) hsrc htgt hdom, hqe]
    exact ⟨_, rfl⟩

/-- Witness for C6: a 5-character limit rejects the 16-character example
with a 413 carrying (16, 5); a 16-character limit lets it through. -/
theorem C6_size_guard_witness :
    process_request tokHB w5 bHB = .resp ⟨.tooLarge 16 5, 413⟩ ∧
    ∃ rv, process_request tokHB w16 bHB = .resp ⟨.result rv, 200⟩ :=
  ⟨(C6_size_guard tokHB w5 bHB
      ⟨some (.str (strL "Hello world. Bye!")), strL "en", strL "en", [], none⟩
      (.str (strL "Hello world. Bye!")) [strL "Hello world.", strL "Bye!"]
      rfl rfl rfl).1 (by decide),
   (C6_size_guard tokHB w16 bHB
      ⟨some (.str (strL "Hello world. Bye!")), strL "en", strL "en", [], none⟩
      (.str (strL "Hello world. Bye!")) [strL "Hello world.", strL "Bye!"]
      rfl rfl rfl).2 (by decide) (by decide)
      (strL "EN") (strL "EN") none rfl rfl rfl rfl⟩

/-- C2 (divergence witness): on a `Plain` request the QE pairs are built
from the reassembled string, not the translations list — `zip` pairs each
source sentence with a single character of the reassembled result.  At the
running example with an identity engine, the outcome is `qePhase` on the
string value, and the pairs are (sentence, one-character string) pairs,
different from the sentence/translation pairs the specification states. -/
theorem C2_qe_pairs_reassembled (qe : List (Str × Str) → QERaw) :
    process_request tokHB ⟨factors0, idTranslate, some qe, 10000⟩ bHB =
      qePhase true [strL "Hello world.", strL "Bye!"]
        (.s (strL "Hello world. Bye!")) qe ∧
    qePairs [strL "Hello world.", strL "Bye!"] (.s (strL "Hello world. Bye!")) =
      [(strL "Hello world.", strL "H"), (strL "Bye!", strL "e")] ∧
    qePairs [strL "Hello world.", strL "Bye!"]
        (.l [strL "Hello world.", strL "Bye!"]) ≠
      qePairs [strL "Hello world.", strL "Bye!"] (.s (strL "Hello world. Bye!")) :=
  ⟨rfl, by decide, by decide⟩

/-- C9: when scoring happens and the raw QE output coerces to the
predictions list `ps`, the success response carries `qeScore = mean ps`
for a `Plain` request and `qeScore = ps` (order preserved) for a
`Segmented` request. -/
theorem C9_qe_aggregation (tok : Str → List Str) (w : Worker) (b : Body)
    (lb : LoadedBody) (qe : List (Str × Str) → QERaw)
    (hload : schemaLoad w.factors b = .ok lb)
    (hqe : w.qe_model = some qe) :
    (∀ text sf tf df ps, lb.text = some (.str text) →
      ((((tok text).map pyStrip)).map List.length).sum ≠ 0 →
      ((((tok text).map pyStrip)).map List.length).sum ≤ w.char_limit →
      w.factors.lang.mapping.lookup lb.src = some sf →
      w.factors.lang.mapping.lookup lb.tgt = some tf →
      resolveDomain w.factors lb.domain = .ok df →
      coercePreds ((tok text).map pyStrip).length
        (qe (qePairs ((tok text).map pyStrip)
          (transVal (w.translate ((tok text).map pyStrip) ⟨sf, tf, df⟩)
            (some (plainDelims text ((tok text).map pyStrip)))))) = .ok ps →
      process_request tok w b =
        .resp ⟨.resultQE
          (rvalOf (transVal (w.translate ((tok text).map pyStrip) ⟨sf, tf, df⟩)
            (some (plainDelims text ((tok text).map pyStrip)))))
          (.q (ratMean ps)), 200⟩) ∧
    (∀ xs ss sf tf df ps, lb.text = some (.list xs) → stripAll xs = some ss →
      (ss.map List.length).sum ≠ 0 →
      (ss.map List.length).sum ≤ w.char_limit →
      w.factors.lang.mapping.lookup lb.src = some sf →
      w.factors.lang.mapping.lookup lb.tgt = some tf →
      resolveDomain w.factors lb.domain = .ok df →
      coercePreds ss.length
        (qe (qePairs ss (.l (w.translate ss ⟨sf, tf, df⟩)))) = .ok ps →
      process_request tok w b =
        .resp ⟨.resultQE (.l (w.translate ss ⟨sf, tf, df⟩)) (.ql ps), 200⟩) := by
  constructor
  · intro text sf tf df ps htext h0 hlim hsrc htgt hdom hps
    rw [process_request_plain tok w b lb text hload htext,
      processTail_main w lb true _ _ sf tf df h0 hlim hsrc htgt hdom, hqe]
    show qePhase true _ _ qe = _
    unfold qePhase
    rw [hps]
    rfl
  · intro xs ss sf tf df ps htext hstrip h0 hlim hsrc htgt hdom hps
    rw [process_request_seg tok w b lb xs ss hload htext hstrip,
      processTail_main w lb false _ _ sf tf df h0 hlim hsrc htgt hdom, hqe]
    show qePhase false _ _ qe = _
    unfold qePhase
    have : transVal (w.translate ss ⟨sf, tf, df⟩) none = .l (w.translate ss ⟨sf, tf, df⟩) := rfl
    rw [this, hps]
    rfl

/-- Witness for C9: per-pair scores `[0.2, 0.8]` aggregate to mean `0.5`
for the `Plain` example and to the full list for the `Segmented` one. -/
theorem C9_qe_aggregation_witness :
    process_request tokHB wQE bHB =
      .resp ⟨.resultQE (.s (strL "Hello world. Bye!")) (.q (1/2)), 200⟩ ∧
    process_request tokHB wQE
        ⟨some (.list [.str (strL "Hello world."), .str (strL "Bye!")]),
         none, none, none, none⟩ =
      .resp ⟨.resultQE (.l [strL "Hello world.", strL "Bye!"])
        (.ql [1/5, 4/5]), 200⟩ := by
  constructor
  · have h := (C9_qe_aggregation tokHB wQE bHB lbHB qeSeq rfl rfl).1
      (strL "Hello world. Bye!") (strL "EN") (strL "EN") none [1/5, 4/5]
      rfl (by decide) (by decide) rfl rfl rfl rfl
    have hm : ratMean [1/5, 4/5] = (1/2 : Rat) := by
      norm_num [ratMean]
    rw [hm] at h
    exact h
  · exact (C9_qe_aggregation tokHB wQE
      ⟨some (.list [.str (strL "Hello world."), .str (strL "Bye!")]),
       none, none, none, none⟩
      ⟨some (.list [.str (strL "Hello world."), .str (strL "Bye!")]),
       strL "en", strL "en", [], none⟩ qeSeq rfl rfl).2
      [.str (strL "Hello world."), .str (strL "Bye!")]
      [strL "Hello world.", strL "Bye!"] (strL "EN") (strL "EN") none [1/5, 4/5]
      rfl rfl (by decide) (by decide) rfl rfl rfl rfl

/-- C10: with exactly one sentence, the raw QE output is coerced as a
single scalar float (not iterated): a scalar `x` yields `qeScore = x` for
`Plain` input and `qeScore = [x]` for `Segmented` input. -/
theorem C10_qe_single_scalar (tok : Str → List Str) (w : Worker) (b : Body)
    (lb : LoadedBody) (qe : List (Str × Str) → QERaw) (x : Rat)
    (hload : schemaLoad w.factors b = .ok lb)
    (hqe : w.qe_model = some qe) :
    (∀ text sf tf df, lb.text = some (.str text) →
      ((tok text).map pyStrip).length = 1 →
      ((((tok text).map pyStrip)).map List.length).sum ≠ 0 →
      ((((tok text).map pyStrip)).map List.length).sum ≤ w.char_limit →
      w.factors.lang.mapping.lookup lb.src = some sf →
      w.factors.lang.mapping.lookup lb.tgt = some tf →
      resolveDomain w.factors lb.domain = .ok df →
      qe (qePairs ((tok text).map pyStrip)
        (transVal (w.translate ((tok text).map pyStrip) ⟨sf, tf, df⟩)
          (some (plainDelims text ((tok text).map pyStrip))))) = .scalar x →
      process_request tok w b =
        .resp ⟨.resultQE
          (rvalOf (transVal (w.translate ((tok text).map pyStrip) ⟨sf, tf, df⟩)
            (some (plainDelims text ((tok text).map pyStrip)))))
          (.q x), 200⟩) ∧
    (∀ xs ss sf tf df, lb.text = some (.list xs) → stripAll xs = some ss →
      ss.length = 1 →
      (ss.map List.length).sum ≠ 0 →
      (ss.map List.length).sum ≤ w.char_limit →
      w.factors.lang.mapping.lookup lb.src = some sf →
      w.factors.lang.mapping.lookup lb.tgt = some tf →
      resolveDomain w.factors lb.domain = .ok df →
      qe (qePairs ss (.l (w.translate ss ⟨sf, tf, df⟩))) = .scalar x →
      process_request tok w b =
        .resp ⟨.resultQE (.l (w.translate ss ⟨sf, tf, df⟩)) (.ql [x]), 200⟩) := by
  constructor
  · intro text sf tf df htext hlen1 h0 hlim hsrc htgt hdom hraw
    have hc : coercePreds ((tok text).map pyStrip).length
        (qe (qePairs ((tok text).map pyStrip)
          (transVal (w.translate ((tok text).map pyStrip) ⟨sf, tf, df⟩)
            (some (plainDelims text ((tok text).map pyStrip)))))) = .ok [x] := by
      rw [hlen1, hraw]
      rfl
    have h := (C9_qe_aggregation tok w b lb qe hload hqe).1
      text sf tf df [x] htext h0 hlim hsrc htgt hdom hc
    rwa [ratMean_singleton] at h
  · intro xs ss sf tf df htext hstrip hlen1 h0 hlim hsrc htgt hdom hraw
    have hc : coercePreds ss.length
        (qe (qePairs ss (.l (w.translate ss ⟨sf, tf, df⟩)))) = .ok [x] := by
      rw [hlen1, hraw]
      rfl
    exact (C9_qe_aggregation tok w b lb qe hload hqe).2
      xs ss sf tf df [x] htext hstrip h0 hlim hsrc htgt hdom hc

/-- Witness for C10 at a one-sentence request with scalar score `0.7`. -/
theorem C10_qe_single_scalar_witness :
    process_request tokOne wQE1 ⟨some (.str (strL "Tere")), none, none, none, none⟩ =
      .resp ⟨.resultQE (.s (strL "Tere")) (.q (7/10)), 200⟩ ∧
    process_request tokOne wQE1 ⟨some (.list [.str (strL "Tere")]), none, none, none, none⟩ =
      .resp ⟨.resultQE (.l [strL "Tere"]) (.ql [7/10]), 200⟩ :=
  ⟨(C10_qe_single_scalar tokOne wQE1
      ⟨some (.str (strL "Tere")), none, none, none, none⟩
      ⟨some (.str (strL "Tere")), strL "en", strL "en", [], none⟩
      qeScalar (7/10) rfl rfl).1
      (strL "Tere") (strL "EN") (strL "EN") none rfl rfl (by decide) (by decide)
      rfl rfl rfl rfl,
   (C10_qe_single_scalar tokOne wQE1
      ⟨some (.list [.str (strL "Tere")]), none, none, none, none⟩
      ⟨some (.list [.str (strL "Tere")]), strL "en", strL "en", [], none⟩
      qeScalar (7/10) rfl rfl).2
      [.str (strL "Tere")] [strL "Tere"] (strL "EN") (strL "EN") none
      rfl rfl rfl (by decide) (by decide) rfl rfl rfl rfl⟩

/-- C3 (amended): for every accepted request that yields a success (200)
response, a string `text` gives a string `result` and a list `text` gives
a list `result`; the list has the same length as the input list whenever
the total stripped length is nonzero, while the empty-input shortcut
returns `[]` regardless of the input list's length.  The engine is assumed
to return one translation per sentence. -/
theorem C3_shape_preservation_amended (tok : Str → List Str) (w : Worker)
    (b : Body) (r : Response)
    (hlen : ∀ ss f, (w.translate ss f).length = ss.length)
    (hout : process_request tok w b = .resp r)
    (h200 : r.http_status_code = 200) :
    (∀ text, b.text = some (.str text) → ∃ s, resultOf r.content = some (.s s)) ∧
    (∀ xs ss, b.text = some (.list xs) → stripAll xs = some ss →
      ∃ ts, resultOf r.content = some (.l ts) ∧
        ((ss.map List.length).sum ≠ 0 → ts.length = xs.length) ∧
        ((ss.map List.length).sum = 0 → ts = [])) := by
  cases hsl : schemaLoad w.factors b with
  | error e =>
    unfold process_request at hout
    rw [hsl] at hout
    have hbad : Outcome.resp ⟨.validationError, 400⟩ = .resp r := hout
    injection hbad with h
    rw [← h] at h200
    simp at h200
  | ok lb =>
    have hlb := schemaLoad_ok_eq _ _ _ hsl
    constructor
    · intro text hb
      have htext : lb.text = some (.str text) := by rw [hlb]; exact hb
      rw [process_request_plain tok w b lb text hsl htext] at hout
      rcases processTail_200_cases w lb true _ _ r hout h200 with
        ⟨hz, hc⟩ | ⟨hnz, sf, tf, df, hres⟩
      · exact ⟨[], by rw [hc]; rfl⟩
      · obtain ⟨d, ds', hds⟩ :=
          List.exists_cons_of_ne_nil (plainDelims_ne_nil text ((tok text).map pyStrip))
        rw [hds] at hres
        exact ⟨reassemble (d :: ds')
          (w.translate ((tok text).map pyStrip) ⟨sf, tf, df⟩), by rw [hres]; rfl⟩
    · intro xs ss hb hstrip
      have htext : lb.text = some (.list xs) := by rw [hlb]; exact hb
      rw [process_request_seg tok w b lb xs ss hsl htext hstrip] at hout
      rcases processTail_200_cases w lb false ss none r hout h200 with
        ⟨hz, hc⟩ | ⟨hnz, sf, tf, df, hres⟩
      · exact ⟨[], by rw [hc]; rfl, fun hnz => absurd hz hnz, fun _ => rfl⟩
      · exact ⟨w.translate ss ⟨sf, tf, df⟩, by rw [hres]; rfl,
          fun _ => by rw [hlen]; exact stripAll_length xs ss hstrip,
          fun hz => absurd hz hnz⟩

/-- Witness for C3 (amended) at the running `Plain` and `Segmented` examples. -/
theorem C3_shape_preservation_amended_witness :
    (∃ s, resultOf (Content.result (.s (strL "Hello world. Bye!"))) = some (.s s)) ∧
    (∃ ts, resultOf (Content.result (.l [strL "Tere"])) = some (.l ts) ∧
      ts.length = [JVal.str (strL "Tere")].length) := by
  constructor
  · exact ((C3_shape_preservation_amended tokHB w0 bHB
      ⟨.result (.s (strL "Hello world. Bye!")), 200⟩
      (fun _ _ => rfl) rfl rfl).1 (strL "Hello world. Bye!") rfl)
  · obtain ⟨ts, h1, h2, h3⟩ := (C3_shape_preservation_amended tokOne w0
      ⟨some (.list [.str (strL "Tere")]), none, none, none, none⟩
      ⟨.result (.l [strL "Tere"]), 200⟩
      (fun _ _ => rfl) rfl rfl).2 [.str (strL "Tere")] [strL "Tere"] rfl rfl
    exact ⟨ts, h1, h2 (by decide)⟩

/-- Counterexample for C3 as stated: the all-whitespace `Segmented` input
`[""]` (length 1) short-circuits to `result = []` (length 0), so the
result is not a list of the same length as the input list. -/
theorem C3_shape_preservation_cex :
    process_request tokNil w0 ⟨some (.list [.str []]), none, none, none, none⟩ =
      .resp ⟨.result (.l []), 200⟩ ∧
    ([] : List Str).length ≠ [JVal.str []].length :=
  ⟨rfl, by decide⟩

/-- C4 (amended): the 400 validation response is returned exactly when a
provided field fails its validator — `text` present with a runtime type
that is neither `str` nor `list`, or a provided `src`/`tgt` outside the
language-mapping keys.  An absent `text` passes validation and the request
then crashes with an uncaught `KeyError`; a list containing non-string
elements passes validation and crashes with an uncaught `AttributeError`
when stripped; the 400 outcome does not depend on the engine or QE model
(they are never invoked). -/
theorem C4_validation_amended (tok : Str → List Str) (w : Worker) (b : Body) :
    (process_request tok w b = .resp ⟨.validationError, 400⟩ ↔
      ((∃ v, b.text = some v ∧ isStrOrList v = false) ∨
       (∃ s, b.src = some s ∧ s ∉ w.factors.lang.mapping.map Prod.fst) ∨
       (∃ s, b.tgt = some s ∧ s ∉ w.factors.lang.mapping.map Prod.fst))) ∧
    (schemaLoad w.factors b ≠ .error () → b.text = none →
      process_request tok w b = .crash .keyError) ∧
    (∀ xs, schemaLoad w.factors b ≠ .error () → b.text = some (.list xs) →
      stripAll xs = none → process_request tok w b = .crash .attributeError) ∧
    (process_request tok w b = .resp ⟨.validationError, 400⟩ →
      ∀ tr qe cl, process_request tok ⟨w.factors, tr, qe, cl⟩ b =
        .resp ⟨.validationError, 400⟩) := by
  have h400 : process_request tok w b = .resp ⟨.validationError, 400⟩ ↔
      schemaLoad w.factors b = .error () := by
    constructor
    · intro h
      cases hsl : schemaLoad w.factors b with
      | error e => cases e; rfl
      | ok lb =>
        cases htext : lb.text with
        | none =>
          rw [process_request_noText tok w b lb hsl htext] at h
          simp at h
        | some tv =>
          cases tv with
          | str text =>
            rw [process_request_plain tok w b lb text hsl htext] at h
            exact absurd h (processTail_not_400 _ _ _ _ _)
          | list xs =>
            cases hstrip : stripAll xs with
            | none =>
              rw [process_request_badList tok w b lb xs hsl htext hstrip] at h
              simp at h
            | some ss =>
              rw [process_request_seg tok w b lb xs ss hsl htext hstrip] at h
              exact absurd h (processTail_not_400 _ _ _ _ _)
          | int n =>
            rw [process_request_intText tok w b lb n hsl htext] at h
            simp at h
    · intro h
      unfold process_request
      rw [h]
  refine ⟨?_, ?_, ?_, ?_⟩
  · rw [h400, schemaLoad_error_iff, textValid_false_iff,
      langValid_false_iff, langValid_false_iff]
  · intro hne htn
    cases hsl : schemaLoad w.factors b with
    | error e => cases e; exact absurd hsl hne
    | ok lb =>
      have hlb := schemaLoad_ok_eq _ _ _ hsl
      have ht : lb.text = none := by rw [hlb]; exact htn
      exact process_request_noText tok w b lb hsl ht
  · intro xs hne htl hstrip
    cases hsl : schemaLoad w.factors b with
    | error e => cases e; exact absurd hsl hne
    | ok lb =>
      have hlb := schemaLoad_ok_eq _ _ _ hsl
      have ht : lb.text = some (.list xs) := by rw [hlb]; exact htl
      exact process_request_badList tok w b lb xs hsl ht hstrip
  · intro h4 tr qe cl
    have herr := h400.mp h4
    unfold process_request
    dsimp only
    rw [herr]

/-- Witness for C4 (amended): an integer `text` is rejected with the 400
validation response. -/
theorem C4_validation_amended_witness :
    process_request tokHB w0 ⟨some (.int 0), none, none, none, none⟩ =
      .resp ⟨.validationError, 400⟩ :=
  (C4_validation_amended tokHB w0 ⟨some (.int 0), none, none, none, none⟩).1.mpr
    (Or.inl ⟨.int 0, rfl, rfl⟩)

/-- Counterexample for C4 as stated: a list containing a non-string
element passes validation and crashes with `AttributeError` instead of
returning the claimed 400, and an absent `text` crashes with `KeyError`
instead of returning the claimed 400. -/
theorem C4_validation_cex :
    process_request tokHB w0 ⟨some (.list [.int 1]), none, none, none, none⟩ =
      .crash .attributeError ∧
    process_request tokHB w0 ⟨none, none, none, none, none⟩ = .crash .keyError :=
  ⟨rfl, rfl⟩

end NMT
